import Mathlib

/-
Verification of the editor-server lint subsystem (`editor/vscode/server/src/linter.rs`).

The source text is modelled as a `List Char`; offsets are character indices,
matching the rope-based lookups (`ropey::Rope::try_char_to_line` /
`try_line_to_char`) used by `offset_to_position`. Machine integers are `Nat`,
with an explicit reduction mod 2^32 where the source narrows a `usize` to
`u32`. Fallible operations return `Option`; a Rust panic is modelled as the
outermost `none`.
-/

set_option autoImplicit false
set_option maxHeartbeats 1000000

namespace Oxc

/-- LSP position: zero-based line and character (column), as in
`tower_lsp::lsp_types::Position`. -/
structure Position where
  line : Nat
  character : Nat
deriving Repr, DecidableEq

/-- `Position::default()`: line 0, character 0. -/
def Position.default : Position := ⟨0, 0⟩

/-- Number of newline characters in a text (ropey counts one line break per
`'\n'`; the total line count of a rope is this plus one). -/
def countNL : List Char → Nat
  | [] => 0
  | c :: rest => (if c = '\n' then 1 else 0) + countNL rest

/-- `Rope::len_lines`: number of lines of the rope built from `text`. -/
def lenLines (text : List Char) : Nat := countNL text + 1

/-- Line index of the character at `offset` (ropey `char_to_line` on an
in-bounds index): the number of newline characters strictly before `offset`. -/
def charToLine : List Char → Nat → Nat
  | _, 0 => 0
  | [], _ + 1 => 0
  | c :: rest, i + 1 => (if c = '\n' then 1 else 0) + charToLine rest i

/-- Char index of the first character of line `line` (ropey `line_to_char` on
an in-bounds line index; the one-past-the-end line maps to the total char
count). -/
def lineStart : List Char → Nat → Nat
  | _, 0 => 0
  | [], _ + 1 => 0
  | c :: rest, j + 1 => 1 + (if c = '\n' then lineStart rest j else lineStart rest (j + 1))

/-- `Rope::try_char_to_line`: errors (returns `none`) when the char index is
strictly greater than the total char count; the one-past-the-end index is
still valid. -/
def tryCharToLine (text : List Char) (offset : Nat) : Option Nat :=
  if offset ≤ text.length then some (charToLine text offset) else none

/-- `Rope::try_line_to_char`: errors when the line index is strictly greater
than the line count. -/
def tryLineToChar (text : List Char) (line : Nat) : Option Nat :=
  if line ≤ lenLines text then some (lineStart text line) else none

/-- `offset_to_position` (linter.rs lines 269–275): build a rope over the
source text, resolve the offset to a line, the line to its first char index,
and return the zero-based line/column pair. Either rope-level failure
propagates as `none` (the two `.ok()?` in the source). -/
def offset_to_position (offset : Nat) (text : List Char) : Option Position :=
  match tryCharToLine text offset with
  | none => none
  | some line =>
    match tryLineToChar text line with
    | none => none
    | some first_char_of_line => some ⟨line, offset - first_char_of_line⟩

/-- `offset_to_position(..).unwrap_or_default()` as written at every call site
in `ErrorWithPosition::new`. -/
def posOfD (offset : Nat) (text : List Char) : Position :=
  (offset_to_position offset text).getD Position.default

theorem charToLine_le_countNL (text : List Char) :
    ∀ offset, charToLine text offset ≤ countNL text := by
  induction text with
  | nil => intro offset; cases offset <;> simp [charToLine, countNL]
  | cons c rest ih =>
    intro offset
    cases offset with
    | zero => simp [charToLine]
    | succ i =>
      simp only [charToLine, countNL]
      exact Nat.add_le_add_left (ih i) _

theorem lineStart_charToLine_le (text : List Char) :
    ∀ offset, offset ≤ text.length → lineStart text (charToLine text offset) ≤ offset := by
  induction text with
  | nil =>
    intro offset h
    have : offset = 0 := Nat.le_zero.mp h
    subst this
    simp [charToLine, lineStart]
  | cons c rest ih =>
    intro offset h
    cases offset with
    | zero => simp [charToLine, lineStart]
    | succ i =>
      have hi : i ≤ rest.length := Nat.succ_le_succ_iff.mp h
      by_cases hc : c = '\n'
      · simp only [charToLine, if_pos hc]
        rw [Nat.add_comm 1 (charToLine rest i)]
        simp only [lineStart, if_pos hc]
        have := ih i hi
        omega
      · simp only [charToLine, if_neg hc]
        rw [Nat.zero_add]
        cases hl : charToLine rest i with
        | zero => simp [lineStart]
        | succ j =>
          simp only [lineStart, if_neg hc]
          have := ih i hi
          rw [hl] at this
          omega

theorem offset_to_position_eq_of_le (text : List Char) (offset : Nat)
    (h : offset ≤ text.length) :
    offset_to_position offset text =
      some ⟨charToLine text offset, offset - lineStart text (charToLine text offset)⟩ := by
  have h1 : charToLine text offset ≤ lenLines text := by
    have := charToLine_le_countNL text offset
    simp only [lenLines]
    omega
  simp [offset_to_position, tryCharToLine, tryLineToChar, h, h1]

theorem charToLine_zero (text : List Char) : charToLine text 0 = 0 := by
  cases text <;> rfl

theorem lineStart_zero (text : List Char) : lineStart text 0 = 0 := by
  cases text <;> rfl

theorem posOfD_zero (text : List Char) : posOfD 0 text = ⟨0, 0⟩ := by
  have h := offset_to_position_eq_of_le text 0 (Nat.zero_le _)
  rw [charToLine_zero, lineStart_zero] at h
  simp [posOfD, h, Position.default]

/-- Claim C3 (counterexample): offset 2 is strictly beyond the end of the
one-character text "a", and `offset_to_position` errors (returns `none`,
via ropey's out-of-bounds `try_char_to_line`) instead of returning the last
valid position `(0, 1)` as the claim states. -/
theorem c3_counterexample : offset_to_position 2 ['a'] = none := rfl

/-- Claim C3 (amended): a strictly out-of-bounds offset makes the Position
Mapper error — `offset_to_position` returns `none` and its callers substitute
the default `(0,0)` position — it does not clamp to the last valid position.
An offset less than or equal to the text length (in particular an offset
exactly equal to the text length) resolves to a valid in-bounds position:
its line is a real line of the text and its line start plus its column
recomposes the original offset. -/
theorem c3_out_of_bounds (text : List Char) (offset : Nat) :
    (text.length < offset → offset_to_position offset text = none ∧
      posOfD offset text = ⟨0, 0⟩) ∧
    (offset ≤ text.length →
      ∃ p, offset_to_position offset text = some p ∧
        p.line < lenLines text ∧ lineStart text p.line + p.character = offset) := by
  constructor
  · intro h
    have hn : offset_to_position offset text = none := by
      simp [offset_to_position, tryCharToLine, Nat.not_le.mpr h]
    exact ⟨hn, by simp [posOfD, hn, Position.default]⟩
  · intro h
    refine ⟨_, offset_to_position_eq_of_le text offset h, ?_, ?_⟩
    · have := charToLine_le_countNL text offset
      simp only [lenLines]
      omega
    · exact Nat.add_sub_cancel' (lineStart_charToLine_le text offset h)

theorem c3_witness :
    (offset_to_position 2 ['a'] = none ∧ posOfD 2 ['a'] = ⟨0, 0⟩) ∧
    (∃ p, offset_to_position 1 ['a'] = some p ∧
      p.line < lenLines ['a'] ∧ lineStart ['a'] p.line + p.character = 1) :=
  ⟨(c3_out_of_bounds ['a'] 2).1 (by decide), (c3_out_of_bounds ['a'] 1).2 (by decide)⟩

/-- Claim C9: for an offset within the text, the (line, column) pair returned
by the Position Mapper, re-resolved to an offset through the same line index
(first char of the line plus the column), yields exactly the original offset,
and that offset lies on the same line. -/
theorem c9_roundtrip (text : List Char) (offset : Nat) (h : offset ≤ text.length)
    (p : Position) (hp : offset_to_position offset text = some p) :
    lineStart text p.line + p.character = offset ∧
    charToLine text (lineStart text p.line + p.character) = p.line := by
  rw [offset_to_position_eq_of_le text offset h] at hp
  have hpe : p = ⟨charToLine text offset, offset - lineStart text (charToLine text offset)⟩ :=
    (Option.some.injEq _ _ ▸ hp).symm
  subst hpe
  have hle := lineStart_charToLine_le text offset h
  constructor
  · exact Nat.add_sub_cancel' hle
  · rw [Nat.add_sub_cancel' hle]

theorem c9_witness :
    lineStart ['a', '\n', 'b'] (1 : Nat) + 0 = 2 ∧
    charToLine ['a', '\n', 'b'] (lineStart ['a', '\n', 'b'] (1 : Nat) + 0) = 1 :=
  c9_roundtrip ['a', '\n', 'b'] 2 (by decide) ⟨1, 0⟩ (by decide)

/-- miette severity: the variants the translator distinguishes. -/
inductive Severity
  | error
  | warning
  | advice
deriving Repr, DecidableEq

/-- miette `LabeledSpan`: offset, length, optional label string. -/
structure LabeledSpan where
  offset : Nat
  len : Nat
  label : Option String
deriving Repr, DecidableEq

/-- The facets of a miette error (`oxc_diagnostics::Error`) read by this
subsystem: the Display message, optional help text, optional severity, and
the optional labeled spans (`labels()` yields an optional iterator; absent
means no spans). Attaching source code (`with_source_code`) changes none of
these facets and is not modelled. -/
structure MietteError where
  message : String
  help : Option String
  severity : Option Severity
  labels : Option (List LabeledSpan)
deriving Repr, DecidableEq

/-- `error.labels().map_or(vec![], Iterator::collect)` (line 41). -/
def labelsOf (error : MietteError) : List LabeledSpan := error.labels.getD []

/-- Key of `labels.iter().min_by_key(|span| span.offset())`: the minimum
offset over the spans, `none` on an empty list. -/
def minSpanOffset : List LabeledSpan → Option Nat
  | [] => none
  | s :: rest =>
    some (match minSpanOffset rest with
          | none => s.offset
          | some m => min s.offset m)

/-- Key of `labels.iter().max_by_key(|span| span.offset() + span.len())`:
the maximum of offset+len over the spans, `none` on an empty list. -/
def maxSpanEnd : List LabeledSpan → Option Nat
  | [] => none
  | s :: rest =>
    some (match maxSpanEnd rest with
          | none => s.offset + s.len
          | some m => max (s.offset + s.len) m)

structure LabeledSpanWithPosition where
  start_pos : Position
  end_pos : Position
  message : Option String
deriving Repr, DecidableEq

structure ErrorWithPosition where
  start_pos : Position
  end_pos : Position
  miette_err : MietteError
  labels_with_pos : List LabeledSpanWithPosition
deriving Repr, DecidableEq

/-- `ErrorWithPosition::new` (lines 40–66). The primary range start is the
minimum label offset (0 when there are no labels) and the primary range end
the maximum label offset+len (0 when there are no labels); each of the two is
narrowed to `u32` by the source's `as u32` cast — modelled as reduction mod
2^32 — before being resolved to a position, with the `(0,0)` default on
resolution failure. Each label is then resolved independently (without the
narrowing cast), keeping its optional label string as the message. -/
def ErrorWithPosition.new (error : MietteError) (text : List Char) : ErrorWithPosition :=
  let labels := labelsOf error
  let start := ((minSpanOffset labels).getD 0) % 2 ^ 32
  let stop := ((maxSpanEnd labels).getD 0) % 2 ^ 32
  { miette_err := error
    start_pos := posOfD start text
    end_pos := posOfD stop text
    labels_with_pos := labels.map fun labeled_span =>
      { start_pos := posOfD labeled_span.offset text
        end_pos := posOfD (labeled_span.offset + labeled_span.len) text
        message := labeled_span.label } }

/-- `lsp_types::DiagnosticSeverity`: the two values produced here. -/
inductive DiagnosticSeverity
  | error
  | warning
deriving Repr, DecidableEq

structure Range where
  start : Position
  endPos : Position
deriving Repr, DecidableEq

/-- `lsp_types::Location`; the `Url` built from the file path is modelled as
the path string itself. -/
structure Location where
  uri : String
  range : Range
deriving Repr, DecidableEq

structure DiagnosticRelatedInformation where
  location : Location
  message : String
deriving Repr, DecidableEq

structure Diagnostic where
  range : Range
  severity : Option DiagnosticSeverity
  code : Option String
  message : String
  source : Option String
  code_description : Option String
  related_information : Option (List DiagnosticRelatedInformation)
  tags : Option (List Nat)
  data : Option String
deriving Repr, DecidableEq

/-- `ErrorWithPosition::into_lsp_diagnostic` (lines 68–110): severity maps
Error→ERROR, Warning→WARNING, anything else→unset; the help text defaults to
the empty string when absent; the message is
`format!("{}\n\n{}", miette_err, help)`; each positioned label becomes a
related-information entry at the file's uri with its message defaulted to the
empty string. -/
def ErrorWithPosition.into_lsp_diagnostic (e : ErrorWithPosition) (path : String) :
    Diagnostic :=
  let severity := match e.miette_err.severity with
    | some Severity.error => some DiagnosticSeverity.error
    | some Severity.warning => some DiagnosticSeverity.warning
    | _ => none
  let help := e.miette_err.help.getD ""
  { range := { start := e.start_pos, endPos := e.end_pos }
    severity := severity
    code := none
    message := e.miette_err.message ++ "\n\n" ++ help
    source := some "oxc"
    code_description := none
    related_information := some (e.labels_with_pos.map fun labeled_span =>
      { location := { uri := path
                      range := { start := labeled_span.start_pos
                                 endPos := labeled_span.end_pos } }
        message := labeled_span.message.getD "" })
    tags := none
    data := none }

theorem minSpanOffset_eq_none_iff (labels : List LabeledSpan) :
    minSpanOffset labels = none ↔ labels = [] := by
  cases labels <;> simp [minSpanOffset]

theorem maxSpanEnd_eq_none_iff (labels : List LabeledSpan) :
    maxSpanEnd labels = none ↔ labels = [] := by
  cases labels <;> simp [maxSpanEnd]

theorem minSpanOffset_isSome (labels : List LabeledSpan) (h : labels ≠ []) :
    ∃ m, minSpanOffset labels = some m := by
  cases labels with
  | nil => exact absurd rfl h
  | cons s rest => exact ⟨_, rfl⟩

theorem maxSpanEnd_isSome (labels : List LabeledSpan) (h : labels ≠ []) :
    ∃ m, maxSpanEnd labels = some m := by
  cases labels with
  | nil => exact absurd rfl h
  | cons s rest => exact ⟨_, rfl⟩

theorem minSpanOffset_le (labels : List LabeledSpan) :
    ∀ m, minSpanOffset labels = some m → ∀ s ∈ labels, m ≤ s.offset := by
  induction labels with
  | nil => intro m hm; cases hm
  | cons a rest ih =>
    intro m hm s hs
    simp only [minSpanOffset, Option.some.injEq] at hm
    rcases List.mem_cons.mp hs with rfl | hs'
    · cases hmr : minSpanOffset rest with
      | none => rw [hmr] at hm; simp only at hm; omega
      | some mr =>
        rw [hmr] at hm
        simp only at hm
        subst hm
        exact min_le_left _ _
    · cases hmr : minSpanOffset rest with
      | none =>
        rw [(minSpanOffset_eq_none_iff rest).mp hmr] at hs'
        cases hs'
      | some mr =>
        rw [hmr] at hm
        simp only at hm
        subst hm
        exact le_trans (min_le_right _ _) (ih mr hmr s hs')

theorem minSpanOffset_mem (labels : List LabeledSpan) :
    ∀ m, minSpanOffset labels = some m → ∃ s ∈ labels, s.offset = m := by
  induction labels with
  | nil => intro m hm; cases hm
  | cons a rest ih =>
    intro m hm
    simp only [minSpanOffset, Option.some.injEq] at hm
    cases hmr : minSpanOffset rest with
    | none =>
      rw [hmr] at hm
      simp only at hm
      exact ⟨a, List.mem_cons_self a rest, hm⟩
    | some mr =>
      rw [hmr] at hm
      simp only at hm
      rcases le_total a.offset mr with hle | hle
      · refine ⟨a, List.mem_cons_self a rest, ?_⟩
        rw [← hm]
        exact (min_eq_left hle).symm
      · obtain ⟨s, hs, hse⟩ := ih mr hmr
        refine ⟨s, List.mem_cons_of_mem a hs, ?_⟩
        rw [← hm, hse]
        exact (min_eq_right hle).symm

theorem maxSpanEnd_ge (labels : List LabeledSpan) :
    ∀ m, maxSpanEnd labels = some m → ∀ s ∈ labels, s.offset + s.len ≤ m := by
  induction labels with
  | nil => intro m hm; cases hm
  | cons a rest ih =>
    intro m hm s hs
    simp only [maxSpanEnd, Option.some.injEq] at hm
    rcases List.mem_cons.mp hs with rfl | hs'
    · cases hmr : maxSpanEnd rest with
      | none => rw [hmr] at hm; simp only at hm; omega
      | some mr =>
        rw [hmr] at hm
        simp only at hm
        subst hm
        exact le_max_left _ _
    · cases hmr : maxSpanEnd rest with
      | none =>
        rw [(maxSpanEnd_eq_none_iff rest).mp hmr] at hs'
        cases hs'
      | some mr =>
        rw [hmr] at hm
        simp only at hm
        subst hm
        exact le_trans (ih mr hmr s hs') (le_max_right _ _)

theorem maxSpanEnd_mem (labels : List LabeledSpan) :
    ∀ m, maxSpanEnd labels = some m → ∃ s ∈ labels, s.offset + s.len = m := by
  induction labels with
  | nil => intro m hm; cases hm
  | cons a rest ih =>
    intro m hm
    simp only [maxSpanEnd, Option.some.injEq] at hm
    cases hmr : maxSpanEnd rest with
    | none =>
      rw [hmr] at hm
      simp only at hm
      exact ⟨a, List.mem_cons_self a rest, hm⟩
    | some mr =>
      rw [hmr] at hm
      simp only at hm
      rcases le_total (a.offset + a.len) mr with hle | hle
      · obtain ⟨s, hs, hse⟩ := ih mr hmr
        refine ⟨s, List.mem_cons_of_mem a hs, ?_⟩
        rw [← hm, hse]
        exact (max_eq_right hle).symm
      · refine ⟨a, List.mem_cons_self a rest, ?_⟩
        rw [← hm]
        exact (max_eq_left hle).symm

/-- A lint error carrying one label whose offset exceeds the `u32` range. -/
def c4err : MietteError :=
  { message := "m", help := none, severity := some Severity.error,
    labels := some [{ offset := 2 ^ 32 + 1, len := 0, label := none }] }

/-- Claim C4 (counterexample): on the two-character text "ab" and an error
whose single span has offset 2^32 + 1, the source's `as u32` narrowing makes
the primary range start at the position of offset 1, i.e. (0,1), whereas the
position of the minimum span offset itself (out of bounds, so the `(0,0)`
default) is (0,0) — the claim as stated fails. -/
theorem c4_counterexample :
    (ErrorWithPosition.new c4err ['a', 'b']).start_pos ≠
      posOfD ((minSpanOffset (labelsOf c4err)).getD 0) ['a', 'b'] := by
  decide

/-- Claim C4 (amended): the primary range start is the position of the minimum
span offset *reduced mod 2^32* (the source's `as u32` cast) and the end the
position of the maximum span offset+len *reduced mod 2^32*; with no labeled
spans both fall back to offset 0 and the diagnostic covers the default
`(0,0)`–`(0,0)` range. The min/max are genuine: attained by some span and
bounding every span. For errors whose offsets stay below 2^32 the reduction
is the identity and the claim holds as written. -/
theorem c4_range (error : MietteError) (text : List Char) :
    (ErrorWithPosition.new error text).start_pos =
      posOfD (((minSpanOffset (labelsOf error)).getD 0) % 2 ^ 32) text ∧
    (ErrorWithPosition.new error text).end_pos =
      posOfD (((maxSpanEnd (labelsOf error)).getD 0) % 2 ^ 32) text ∧
    (labelsOf error = [] →
      (ErrorWithPosition.new error text).start_pos = ⟨0, 0⟩ ∧
      (ErrorWithPosition.new error text).end_pos = ⟨0, 0⟩) ∧
    (labelsOf error ≠ [] →
      (∃ s ∈ labelsOf error, s.offset = (minSpanOffset (labelsOf error)).getD 0) ∧
      (∀ s ∈ labelsOf error, (minSpanOffset (labelsOf error)).getD 0 ≤ s.offset) ∧
      (∃ s ∈ labelsOf error, s.offset + s.len = (maxSpanEnd (labelsOf error)).getD 0) ∧
      (∀ s ∈ labelsOf error, s.offset + s.len ≤ (maxSpanEnd (labelsOf error)).getD 0)) := by
  refine ⟨rfl, rfl, ?_, ?_⟩
  · intro h
    have hmin : minSpanOffset (labelsOf error) = none := (minSpanOffset_eq_none_iff _).mpr h
    have hmax : maxSpanEnd (labelsOf error) = none := (maxSpanEnd_eq_none_iff _).mpr h
    constructor
    · show posOfD (((minSpanOffset (labelsOf error)).getD 0) % 2 ^ 32) text = ⟨0, 0⟩
      rw [hmin]
      simpa using posOfD_zero text
    · show posOfD (((maxSpanEnd (labelsOf error)).getD 0) % 2 ^ 32) text = ⟨0, 0⟩
      rw [hmax]
      simpa using posOfD_zero text
  · intro h
    obtain ⟨mn, hmn⟩ := minSpanOffset_isSome _ h
    obtain ⟨mx, hmx⟩ := maxSpanEnd_isSome _ h
    rw [hmn, hmx]
    simp only [Option.getD_some]
    exact ⟨minSpanOffset_mem _ mn hmn, minSpanOffset_le _ mn hmn,
           maxSpanEnd_mem _ mx hmx, maxSpanEnd_ge _ mx hmx⟩

theorem c4_range_witness :
    (∃ s ∈ labelsOf c4err, s.offset = (minSpanOffset (labelsOf c4err)).getD 0) ∧
    (∀ s ∈ labelsOf c4err, (minSpanOffset (labelsOf c4err)).getD 0 ≤ s.offset) ∧
    (∃ s ∈ labelsOf c4err, s.offset + s.len = (maxSpanEnd (labelsOf c4err)).getD 0) ∧
    (∀ s ∈ labelsOf c4err, s.offset + s.len ≤ (maxSpanEnd (labelsOf c4err)).getD 0) :=
  (c4_range c4err ['a', 'b']).2.2.2 (by decide)

/-- An error without help text. -/
def c5err : MietteError :=
  { message := "m", help := none, severity := none, labels := none }

/-- Claim C5 (counterexample): with no help text present, the diagnostic's
message body is not the bare primary message — the source appends the
blank-line separator unconditionally, yielding "m\n\n" instead of "m". -/
theorem c5_counterexample :
    ((ErrorWithPosition.new c5err []).into_lsp_diagnostic "a.js").message ≠
      c5err.message := by
  decide

/-- Claim C5 (amended): the message body is the primary message followed by a
blank-line separator and then the help string when help is present, or by the
separator alone when help is absent — the separator is appended
unconditionally, not only when help exists. -/
theorem c5_message (e : ErrorWithPosition) (path : String) :
    (e.into_lsp_diagnostic path).message =
      e.miette_err.message ++ "\n\n" ++ e.miette_err.help.getD "" ∧
    (∀ h, e.miette_err.help = some h →
      (e.into_lsp_diagnostic path).message = e.miette_err.message ++ "\n\n" ++ h) ∧
    (e.miette_err.help = none →
      (e.into_lsp_diagnostic path).message = e.miette_err.message ++ "\n\n") := by
  refine ⟨rfl, ?_, ?_⟩
  · intro h hh
    simp [ErrorWithPosition.into_lsp_diagnostic, hh]
  · intro hh
    show e.miette_err.message ++ "\n\n" ++ e.miette_err.help.getD "" =
      e.miette_err.message ++ "\n\n"
    rw [hh]
    exact String.append_empty _

theorem c5_message_witness :
    ((ErrorWithPosition.new c5err []).into_lsp_diagnostic "a.js").message =
      (ErrorWithPosition.new c5err []).miette_err.message ++ "\n\n" :=
  (c5_message (ErrorWithPosition.new c5err []) "a.js").2.2 rfl

/-- Claim C6: the translator never drops a diagnostic over a position-mapping
failure — the constructed value always carries the error and one positioned
entry per labeled span — and wherever `offset_to_position` fails, the
`(0,0)` default is used: for the primary start and end offsets (after the
`u32` narrowing the source applies), and for each label's own start and end. -/
theorem c6_fallback (error : MietteError) (text : List Char) :
    (ErrorWithPosition.new error text).miette_err = error ∧
    (ErrorWithPosition.new error text).labels_with_pos.length = (labelsOf error).length ∧
    (offset_to_position (((minSpanOffset (labelsOf error)).getD 0) % 2 ^ 32) text = none →
      (ErrorWithPosition.new error text).start_pos = ⟨0, 0⟩) ∧
    (offset_to_position (((maxSpanEnd (labelsOf error)).getD 0) % 2 ^ 32) text = none →
      (ErrorWithPosition.new error text).end_pos = ⟨0, 0⟩) ∧
    (∀ s ∈ labelsOf error,
      (offset_to_position s.offset text = none →
        ({ start_pos := ⟨0, 0⟩, end_pos := posOfD (s.offset + s.len) text,
           message := s.label } : LabeledSpanWithPosition) ∈
          (ErrorWithPosition.new error text).labels_with_pos) ∧
      (offset_to_position (s.offset + s.len) text = none →
        ({ start_pos := posOfD s.offset text, end_pos := ⟨0, 0⟩,
           message := s.label } : LabeledSpanWithPosition) ∈
          (ErrorWithPosition.new error text).labels_with_pos)) := by
  refine ⟨rfl, by simp [ErrorWithPosition.new], ?_, ?_, ?_⟩
  · intro hnone
    show posOfD (((minSpanOffset (labelsOf error)).getD 0) % 2 ^ 32) text = ⟨0, 0⟩
    unfold posOfD
    rw [hnone]
    rfl
  · intro hnone
    show posOfD (((maxSpanEnd (labelsOf error)).getD 0) % 2 ^ 32) text = ⟨0, 0⟩
    unfold posOfD
    rw [hnone]
    rfl
  · intro s hs
    have hmain : (ErrorWithPosition.new error text).labels_with_pos =
        (labelsOf error).map (fun labeled_span =>
          ({ start_pos := posOfD labeled_span.offset text
             end_pos := posOfD (labeled_span.offset + labeled_span.len) text
             message := labeled_span.label } : LabeledSpanWithPosition)) := rfl
    constructor
    · intro hnone
      have hz : posOfD s.offset text = ⟨0, 0⟩ := by
        unfold posOfD
        rw [hnone]
        rfl
      rw [hmain, ← hz]
      exact List.mem_map_of_mem _ hs
    · intro hnone
      have hz : posOfD (s.offset + s.len) text = ⟨0, 0⟩ := by
        unfold posOfD
        rw [hnone]
        rfl
      rw [hmain, ← hz]
      exact List.mem_map_of_mem _ hs

/-- An error whose single label lies far beyond a one-character text. -/
def c6err : MietteError :=
  { message := "m", help := none, severity := none,
    labels := some [{ offset := 100, len := 1, label := some "l" }] }

theorem c6_fallback_witness :
    (ErrorWithPosition.new c6err ['a']).start_pos = ⟨0, 0⟩ :=
  (c6_fallback c6err ['a']).2.2.1 (by decide)

/-- Modelled from the spec: the recognized-extension set
(`oxc_span::VALID_EXTENSIONS`, external to this subsystem) — the
source-language variants this subsystem analyzes, determined per file from the
extension (spec §6, Glossary "Dialect"). -/
def VALID_EXTENSIONS : List String :=
  ["js", "mjs", "cjs", "jsx", "ts", "mts", "cts", "tsx"]

/-- Modelled from the spec (std `Path::extension`, external): scan the reversed
file name; the extension is what follows the last dot, there is none when the
name has no dot, and a dot that is the leading character of the name (a hidden
file) does not begin an extension. `acc` accumulates the already-scanned
trailing characters in source order. -/
def revExt : List Char → List Char → Option (List Char)
  | [], _ => none
  | c :: rest, acc =>
    if c = '.' then (if rest.isEmpty then none else some acc)
    else revExt rest (c :: acc)

/-- Extension of the final path component ('/'-separated), as an optional
string. -/
def pathExtension (path : String) : Option String :=
  (revExt (path.data.reverse.takeWhile fun c => ¬ c = '/') []).map fun cs => String.mk cs

/-- `IsolatedLintHandler::is_wanted_ext` (lines 158–161): the path has an
extension and it belongs to `VALID_EXTENSIONS`. -/
def is_wanted_ext (path : String) : Bool :=
  match pathExtension path with
  | none => false
  | some ext => VALID_EXTENSIONS.contains ext

/-- The source dialect selected for a file, carried as its extension. -/
structure SourceType where
  ext : String
deriving Repr, DecidableEq

/-- Modelled from the spec: `oxc_span::SourceType::from_path` (external to
this subsystem) — determine the dialect from the file extension; an
unrecognized or missing extension is an error (spec §4.3 step 2). -/
def SourceType.from_path (path : String) : Option SourceType :=
  match pathExtension path with
  | none => none
  | some ext => if VALID_EXTENSIONS.contains ext then some ⟨ext⟩ else none

/-- A lint message as returned by `Linter::run` and by `Fixer::fix`; this
subsystem only reads its error. -/
structure Message where
  error : MietteError
deriving Repr, DecidableEq

/-- `Fixer::fix` output: the fixed source text and the messages (the pre-fix
findings) to report. -/
structure FixResult where
  fixed_code : String
  messages : List Message
deriving Repr, DecidableEq

/-- Modelled from the spec: the opaque Analysis Engine (§6) together with the
shared linter instance. Parsing, semantic-model construction and linting are
deterministic in the source text and dialect, so the stages are collapsed to
their observable outputs: `parse(text, dialect)`'s errors, then
`buildSemanticModel`'s errors, then `lint`'s findings; `has_fix` is the
configured fix capability (`Linter::has_fix`), and `fixer_fix` is
`Fixer::new(text, findings).fix()`. -/
structure Engine where
  parse_errors : String → SourceType → List MietteError
  semantic_errors : String → SourceType → List MietteError
  lint_run : String → SourceType → List Message
  has_fix : Bool
  fixer_fix : String → List Message → FixResult

/-- The file system visible to `lint_path`: per-path content (`none` means
`fs::read_to_string` fails) plus the set of paths on which `fs::write`
fails. -/
structure FileSystem where
  files : String → Option String
  writeFails : String → Bool

/-- `fs::write`: fails on the designated paths, otherwise updates the
content stored at `path`. -/
def FileSystem.write (fs : FileSystem) (path content : String) : Option FileSystem :=
  if fs.writeFails path then none
  else some { files := fun p => if p = path then some content else fs.files p
              writeFails := fs.writeFails }

/-- The pipeline stages of `lint_path`, recorded in the order the source
executes them (the "stage-call counter" of spec §8). -/
inductive Stage
  | read
  | parse
  | semantic
  | lint
  | fix
  | write
deriving Repr, DecidableEq

/-- `IsolatedLintHandler::wrap_diagnostics` (lines 250–266): pair the path
with each error resolved to positions against the given source text (the
attached `NamedSource` only affects rendering and is not modelled). -/
def wrap_diagnostics (path : String) (source_text : String)
    (diagnostics : List MietteError) : String × List ErrorWithPosition :=
  (path, diagnostics.map fun diagnostic => ErrorWithPosition.new diagnostic source_text.data)

/-- `IsolatedLintHandler::lint_path` (lines 208–248), instrumented with the
list of stages it executes. The outermost `Option` models abortion: `none`
exactly when the source panics (read failure, undetermined dialect, or write
failure); otherwise the value is the source function's return value paired
with the post-run file system and the stage trace. -/
def lint_path (linter : Engine) (fs : FileSystem) (path : String) :
    Option (Option (String × List ErrorWithPosition) × FileSystem × List Stage) :=
  match fs.files path with
  | none => none
  | some source_text =>
    match SourceType.from_path path with
    | none => none
    | some source_type =>
      let parseErrors := linter.parse_errors source_text source_type
      if parseErrors.isEmpty then
        let semErrors := linter.semantic_errors source_text source_type
        if semErrors.isEmpty then
          let result := linter.lint_run source_text source_type
          if result.isEmpty then
            some (none, fs, [Stage.read, Stage.parse, Stage.semantic, Stage.lint])
          else if linter.has_fix then
            let fix_result := linter.fixer_fix source_text result
            match fs.write path fix_result.fixed_code with
            | none => none
            | some fs2 =>
              some (some (wrap_diagnostics path source_text
                      (fix_result.messages.map Message.error)), fs2,
                    [Stage.read, Stage.parse, Stage.semantic, Stage.lint,
                     Stage.fix, Stage.write])
          else
            some (some (wrap_diagnostics path source_text (result.map Message.error)), fs,
                  [Stage.read, Stage.parse, Stage.semantic, Stage.lint])
        else
          some (some (wrap_diagnostics path source_text semErrors), fs,
                [Stage.read, Stage.parse, Stage.semantic])
      else
        some (some (wrap_diagnostics path source_text parseErrors), fs,
              [Stage.read, Stage.parse])

/-- `IsolatedLintHandler::run_single` (lines 134–156), instrumented like
`lint_path`: for a path with a wanted extension, run `lint_path`; a clean run
(`None` from `lint_path`) becomes `(path, [])`, otherwise each positioned
error is translated to an LSP diagnostic against the returned path. For any
other path the inner result is `none` — the analyzer is not invoked (empty
stage trace, file system untouched). -/
def run_single (linter : Engine) (fs : FileSystem) (path : String) :
    Option (Option (String × List Diagnostic) × FileSystem × List Stage) :=
  if is_wanted_ext path then
    match lint_path linter fs path with
    | none => none
    | some (res, fs2, stages) =>
      some (some (match res with
          | none => (path, [])
          | some (p, errors) => (p, errors.map fun e => e.into_lsp_diagnostic p)),
        fs2, stages)
  else
    some (none, fs, [])

theorem isEmpty_eq_true_iff {α : Type} (l : List α) : l.isEmpty = true ↔ l = [] := by
  cases l <;> simp

theorem isEmpty_eq_false_iff {α : Type} (l : List α) : l.isEmpty = false ↔ l ≠ [] := by
  cases l <;> simp

theorem FileSystem.write_files_self (fs fs2 : FileSystem) (path content : String)
    (h : fs.write path content = some fs2) : fs2.files path = some content := by
  unfold FileSystem.write at h
  by_cases hw : fs.writeFails path
  · simp [hw] at h
  · simp only [hw, Bool.false_eq_true, if_false, Option.some.injEq] at h
    rw [← h]
    simp

/-- Claim C1: for a file whose content is read and whose dialect resolves,
`lint_path` is strictly staged and short-circuiting — with parse errors it
returns them, translated through `wrap_diagnostics` against the source text,
without the semantic or lint stage ever running (neither appears in the stage
trace) and without touching the file system; with a clean parse but semantic
errors it returns those, and the lint stage never runs. -/
theorem c1_short_circuit (linter : Engine) (fs : FileSystem) (path source_text : String)
    (source_type : SourceType)
    (hread : fs.files path = some source_text)
    (hdialect : SourceType.from_path path = some source_type) :
    (linter.parse_errors source_text source_type ≠ [] →
      ∃ stages, lint_path linter fs path =
          some (some (wrap_diagnostics path source_text
            (linter.parse_errors source_text source_type)), fs, stages) ∧
        Stage.semantic ∉ stages ∧ Stage.lint ∉ stages) ∧
    (linter.parse_errors source_text source_type = [] →
      linter.semantic_errors source_text source_type ≠ [] →
      ∃ stages, lint_path linter fs path =
          some (some (wrap_diagnostics path source_text
            (linter.semantic_errors source_text source_type)), fs, stages) ∧
        Stage.lint ∉ stages) := by
  constructor
  · intro hp
    refine ⟨[Stage.read, Stage.parse], ?_, by decide, by decide⟩
    have hp' : (linter.parse_errors source_text source_type).isEmpty = false :=
      (isEmpty_eq_false_iff _).mpr hp
    simp [lint_path, hread, hdialect, hp']
  · intro hp hs
    refine ⟨[Stage.read, Stage.parse, Stage.semantic], ?_, by decide⟩
    have hs' : (linter.semantic_errors source_text source_type).isEmpty = false :=
      (isEmpty_eq_false_iff _).mpr hs
    simp [lint_path, hread, hdialect, hp, hs']

/-- Claim C2: when the linter has fix capability and lint produced findings,
`lint_path` writes the fixed text to the same path — afterwards the file
system holds exactly `fixed_code` at that path — and returns the fixer's
messages translated against the *pre-fix* source text; the diagnostics are
reported, not suppressed. (The write is modelled as one indivisible map
update; filesystem-level atomicity is outside the embedding.) -/
theorem c2_fix_behavior (linter : Engine) (fs fs2 : FileSystem)
    (path source_text : String) (source_type : SourceType)
    (hread : fs.files path = some source_text)
    (hdialect : SourceType.from_path path = some source_type)
    (hparse : linter.parse_errors source_text source_type = [])
    (hsem : linter.semantic_errors source_text source_type = [])
    (hlint : linter.lint_run source_text source_type ≠ [])
    (hfix : linter.has_fix = true)
    (hwrite : fs.write path (linter.fixer_fix source_text
        (linter.lint_run source_text source_type)).fixed_code = some fs2) :
    lint_path linter fs path =
      some (some (wrap_diagnostics path source_text
              ((linter.fixer_fix source_text
                  (linter.lint_run source_text source_type)).messages.map Message.error)),
            fs2,
            [Stage.read, Stage.parse, Stage.semantic, Stage.lint, Stage.fix, Stage.write]) ∧
    fs2.files path = some (linter.fixer_fix source_text
        (linter.lint_run source_text source_type)).fixed_code := by
  have hlint' : (linter.lint_run source_text source_type).isEmpty = false :=
    (isEmpty_eq_false_iff _).mpr hlint
  constructor
  · simp [lint_path, hread, hdialect, hparse, hsem, hlint', hfix, hwrite]
  · exact FileSystem.write_files_self fs fs2 path _ hwrite

/-- Claim C7: a path whose extension is not recognized (including a path with
no extension at all) makes `run_single` return the inner `none`, for every
engine and every file-system content — the File Analyzer is never invoked
(empty stage trace, file system untouched, no panic even on an unreadable
file). -/
theorem c7_unwanted (linter : Engine) (fs : FileSystem) (path : String)
    (h : is_wanted_ext path = false) :
    run_single linter fs path = some (none, fs, []) := by
  simp [run_single, h]

/-- Claim C8: `lint_path` aborts (the outermost `none`, modelling a panic)
exactly when reading the file fails, or the dialect cannot be determined from
the path, or the run reaches the autofix write and that write fails; in every
other case it returns a value, so these conditions are never surfaced as
diagnostics or as an error value. -/
theorem c8_panic_iff (linter : Engine) (fs : FileSystem) (path : String) :
    lint_path linter fs path = none ↔
      fs.files path = none ∨
      (fs.files path ≠ none ∧ SourceType.from_path path = none) ∨
      (∃ source_text source_type,
        fs.files path = some source_text ∧
        SourceType.from_path path = some source_type ∧
        linter.parse_errors source_text source_type = [] ∧
        linter.semantic_errors source_text source_type = [] ∧
        linter.lint_run source_text source_type ≠ [] ∧
        linter.has_fix = true ∧
        fs.write path (linter.fixer_fix source_text
          (linter.lint_run source_text source_type)).fixed_code = none) := by
  cases hf : fs.files path with
  | none => simp [lint_path, hf]
  | some source_text =>
    cases hd : SourceType.from_path path with
    | none => simp [lint_path, hf, hd]
    | some source_type =>
      cases hp : (linter.parse_errors source_text source_type).isEmpty with
      | false =>
        have hp' := (isEmpty_eq_false_iff _).mp hp
        simp [lint_path, hf, hd, hp, hp']
      | true =>
        have hp' := (isEmpty_eq_true_iff _).mp hp
        cases hs : (linter.semantic_errors source_text source_type).isEmpty with
        | false =>
          have hs' := (isEmpty_eq_false_iff _).mp hs
          simp [lint_path, hf, hd, hp, hs, hp', hs']
        | true =>
          have hs' := (isEmpty_eq_true_iff _).mp hs
          cases hl : (linter.lint_run source_text source_type).isEmpty with
          | true =>
            have hl' := (isEmpty_eq_true_iff _).mp hl
            simp [lint_path, hf, hd, hp, hs, hl, hp', hs', hl']
          | false =>
            have hl' := (isEmpty_eq_false_iff _).mp hl
            cases hfx : linter.has_fix with
            | false =>
              simp [lint_path, hf, hd, hp, hs, hl, hfx, hp', hs', hl']
            | true =>
              cases hw : fs.write path (linter.fixer_fix source_text
                  (linter.lint_run source_text source_type)).fixed_code with
              | none => simp [lint_path, hf, hd, hp, hs, hl, hfx, hw, hp', hs', hl']
              | some fs2 => simp [lint_path, hf, hd, hp, hs, hl, hfx, hw, hp', hs', hl']

/-- Claim C10: on a path with a recognized extension that analyzes fully clean
(readable, dialect resolved, no parse, semantic, or lint findings),
`run_single` returns `some` of the exact input path paired with an empty
diagnostic list; moreover for a recognized-extension path no completed
`run_single` call ever returns the inner `none` — that value is reserved for
unrecognized extensions. -/
theorem c10_clean (linter : Engine) (fs : FileSystem) (path source_text : String)
    (source_type : SourceType)
    (hwant : is_wanted_ext path = true)
    (hread : fs.files path = some source_text)
    (hdialect : SourceType.from_path path = some source_type)
    (hparse : linter.parse_errors source_text source_type = [])
    (hsem : linter.semantic_errors source_text source_type = [])
    (hlint : linter.lint_run source_text source_type = []) :
    run_single linter fs path =
      some (some (path, []), fs, [Stage.read, Stage.parse, Stage.semantic, Stage.lint]) ∧
    (∀ (eng2 : Engine) (fs0 : FileSystem) (r : Option (String × List Diagnostic))
        (fs3 : FileSystem) (st : List Stage),
      run_single eng2 fs0 path = some (r, fs3, st) → r ≠ none) := by
  constructor
  · simp [run_single, hwant, lint_path, hread, hdialect, hparse, hsem, hlint]
  · intro eng2 fs0 r fs3 st heq
    simp only [run_single, hwant, if_true] at heq
    cases hlp : lint_path eng2 fs0 path with
    | none => rw [hlp] at heq; cases heq
    | some v =>
      rw [hlp] at heq
      obtain ⟨res, fs2', stages⟩ := v
      simp only [Option.some.injEq, Prod.mk.injEq] at heq
      rw [← heq.1]
      simp

/-- Sample error used by the concrete witnesses. -/
def sampleErr : MietteError :=
  { message := "x", help := none, severity := some Severity.error, labels := none }

/-- Engine whose parse stage reports one error. -/
def engParseErr : Engine :=
  { parse_errors := fun _ _ => [sampleErr]
    semantic_errors := fun _ _ => []
    lint_run := fun _ _ => []
    has_fix := false
    fixer_fix := fun t m => { fixed_code := t, messages := m } }

/-- Engine whose semantic stage reports one error. -/
def engSemErr : Engine :=
  { parse_errors := fun _ _ => []
    semantic_errors := fun _ _ => [sampleErr]
    lint_run := fun _ _ => []
    has_fix := false
    fixer_fix := fun t m => { fixed_code := t, messages := m } }

/-- Engine that is clean at every stage. -/
def engClean : Engine :=
  { parse_errors := fun _ _ => []
    semantic_errors := fun _ _ => []
    lint_run := fun _ _ => []
    has_fix := false
    fixer_fix := fun t m => { fixed_code := t, messages := m } }

/-- Fixing engine: one lint finding, fix capability on, fixed text "fixed". -/
def engFix : Engine :=
  { parse_errors := fun _ _ => []
    semantic_errors := fun _ _ => []
    lint_run := fun _ _ => [{ error := sampleErr }]
    has_fix := true
    fixer_fix := fun _ m => { fixed_code := "fixed", messages := m } }

/-- A file system holding one file "a.js" with content "code"; writes
succeed everywhere. -/
def fsOne : FileSystem :=
  { files := fun p => if p = "a.js" then some "code" else none
    writeFails := fun _ => false }

/-- `fsOne` after the autofix write of "fixed" to "a.js". -/
def fsOneFixed : FileSystem :=
  { files := fun p => if p = "a.js" then some "fixed" else fsOne.files p
    writeFails := fsOne.writeFails }

/-- The empty file system: every read fails. -/
def fsNone : FileSystem :=
  { files := fun _ => none, writeFails := fun _ => false }

theorem c1_witness :
    (∃ stages, lint_path engParseErr fsOne "a.js" =
        some (some (wrap_diagnostics "a.js" "code"
          (engParseErr.parse_errors "code" ⟨"js"⟩)), fsOne, stages) ∧
      Stage.semantic ∉ stages ∧ Stage.lint ∉ stages) ∧
    (∃ stages, lint_path engSemErr fsOne "a.js" =
        some (some (wrap_diagnostics "a.js" "code"
          (engSemErr.semantic_errors "code" ⟨"js"⟩)), fsOne, stages) ∧
      Stage.lint ∉ stages) :=
  ⟨(c1_short_circuit engParseErr fsOne "a.js" "code" ⟨"js"⟩ (by decide) (by decide)).1
      (by decide),
   (c1_short_circuit engSemErr fsOne "a.js" "code" ⟨"js"⟩ (by decide) (by decide)).2
      (by decide) (by decide)⟩

theorem c2_witness :
    lint_path engFix fsOne "a.js" =
      some (some (wrap_diagnostics "a.js" "code"
              ((engFix.fixer_fix "code" (engFix.lint_run "code" ⟨"js"⟩)).messages.map
                Message.error)),
            fsOneFixed,
            [Stage.read, Stage.parse, Stage.semantic, Stage.lint, Stage.fix, Stage.write]) ∧
    fsOneFixed.files "a.js" =
      some (engFix.fixer_fix "code" (engFix.lint_run "code" ⟨"js"⟩)).fixed_code :=
  c2_fix_behavior engFix fsOne fsOneFixed "a.js" "code" ⟨"js"⟩ (by decide) (by decide)
    (by decide) (by decide) (by decide) (by decide) rfl

theorem c7_witness :
    is_wanted_ext "README" = false ∧ is_wanted_ext "notes.txt" = false ∧
    run_single engClean fsNone "README" = some (none, fsNone, []) ∧
    run_single engClean fsNone "notes.txt" = some (none, fsNone, []) :=
  ⟨by decide, by decide,
   c7_unwanted engClean fsNone "README" (by decide),
   c7_unwanted engClean fsNone "notes.txt" (by decide)⟩

theorem c8_witness : lint_path engClean fsNone "a.js" = none :=
  (c8_panic_iff engClean fsNone "a.js").mpr (Or.inl rfl)

theorem c10_witness :
    run_single engClean fsOne "a.js" =
      some (some ("a.js", []), fsOne,
        [Stage.read, Stage.parse, Stage.semantic, Stage.lint]) :=
  (c10_clean engClean fsOne "a.js" "code" ⟨"js"⟩ (by decide) (by decide) (by decide)
    (by decide) (by decide) (by decide)).1

end Oxc
